import Mathlib

/-!
Verification development for the magic-eraser video-watermark pipeline.

Shallow embedding of the three Python sources:
  * `scripts/inpaint_video.py`       (namespace `InpaintVideo`)
  * `scripts/ai_watermark_remover.py` (namespace `AiWatermarkRemover`)
  * `scripts/models/model_manager.py` (namespace `ModelManager`)

Machine bytes are modelled as `Nat`, exact pixel arithmetic as `Rat`
(the sources compute in IEEE floats; the embedding uses exact rationals,
the standard idealisation). Fallible steps are modelled with explicit
outcome parameters, and stateful file-system effects with explicit
record states.
-/

namespace MagicEraser

/-- Python 3 `round`: round half to even (banker's rounding), modelled
exactly on rationals. -/
def pyRound (q : ℚ) : ℤ :=
  if q - ⌊q⌋ < 1/2 then ⌊q⌋
  else if 1/2 < q - ⌊q⌋ then ⌊q⌋ + 1
  else if Even ⌊q⌋ then ⌊q⌋ else ⌊q⌋ + 1

namespace InpaintVideo

/-- `print_progress` (inpaint_video.py:16-25): percentage field,
`round(current_frame / total_frames * 100) if total_frames > 0 else 0`. -/
def print_progress_pct (current total : ℤ) : ℤ :=
  if 0 < total then pyRound ((current : ℚ) / (total : ℚ) * 100) else 0

/-- `report_interval` (inpaint_video.py:144): `max(1, total_frames // 100)`,
Python floor division. -/
def report_interval (total : ℤ) : ℤ :=
  max 1 (Int.fdiv total 100)

/-- The sequence of `(current_frame, progress)` pairs emitted by the loop of
`process_video` (inpaint_video.py:143-158) when `actual` frames decode
successfully against a declared total of `total`: frame counter runs
1..actual and an event is emitted when
`current_frame % report_interval == 0 or current_frame == total_frames`. -/
def progress_events (total : ℤ) (actual : ℕ) : List (ℤ × ℤ) :=
  ((List.range actual).map
      (fun (i : ℕ) => ((i : ℤ) + 1, print_progress_pct ((i : ℤ) + 1) total))).filter
    (fun e => e.1 % report_interval total == 0 || e.1 == total)

end InpaintVideo

namespace AiWatermarkRemover

/-- one round of the read loop in `read_frames` (ai_watermark_remover.py
95-101) repeated by the main loop: up to `batch` frames are taken per
iteration; the fuel is set to the total frame count by the wrapper, so it
never runs out. -/
def read_batches_go {α : Type*} (batch : ℕ) : ℕ → List α → List (List α)
  | _, [] => []
  | 0, _ :: _ => []
  | fuel + 1, a :: l => ((a :: l).take batch) :: read_batches_go batch fuel ((a :: l).drop batch)

/-- the sequence of batches the main loop (lines 106-109) consumes: an empty
read (`batch = 0`, or the stream exhausted) breaks the loop. -/
def read_batches {α : Type*} (batch : ℕ) (frames : List α) : List (List α) :=
  if batch = 0 then [] else read_batches_go batch frames.length frames

/-- `torchvision` `F.to_tensor` (line 114): uint8 pixels to floats in
`[0,1]`, modelled exactly on rationals. -/
def to_tensor (f : List ℕ) : List ℚ := f.map (fun p : ℕ => (p : ℚ) / 255)

/-- one pixel of `np.clip(out_batch[i] * 255.0, 0, 255).astype(np.uint8)`
(lines 132, 136): scale back to `[0,255]`, clamp, then NumPy's C-style
float-to-integer truncation (toward zero; the clamp makes it a floor). -/
def tensor_to_byte (q : ℚ) : ℕ :=
  (⌊max 0 (min 255 (q * 255))⌋).toNat

/-- one pixel of `final_frame` (line 139):
`(frames[i] * (1 - m) + out_frame * m).astype(np.uint8)` — exact blend then
truncation to the byte representation (the blend is a convex combination of
bytes for mask values in `[0,1]`, hence nonnegative and at most 255). -/
def composite_pixel (orig restored : ℕ) (m : ℚ) : ℕ :=
  (⌊(orig : ℚ) * (1 - m) + (restored : ℚ) * m⌋).toNat

/-- the per-frame computation inside one batch iteration (lines 113-140).
The oracle is the per-frame action of the model: `DummyLamaModel`'s stacked
convolutions act on each element of the batch independently, so
`model(input_batch, mask)` is the oracle mapped over the batch. -/
def process_frame (oracle : List ℚ → List ℚ) (mask : List ℚ) (f : List ℕ) : List ℕ :=
  List.zipWith3 composite_pixel f ((oracle (to_tensor f)).map tensor_to_byte) mask

/-- the batched main loop of `process_video_optimized` (lines 105-148),
viewed as the ordered list of composited frames written to the sink. -/
def process_video_optimized (oracle : List ℚ → List ℚ) (mask : List ℚ)
    (batch : ℕ) (frames : List (List ℕ)) : List (List ℕ) :=
  ((read_batches batch frames).map
    (fun bt => bt.map (process_frame oracle mask))).flatten

end AiWatermarkRemover

/-- a watermark region `{x, y, width, height}` in integer pixels. -/
structure Region where
  x : ℤ
  y : ℤ
  width : ℤ
  height : ℤ

namespace InpaintVideo

/-- NumPy resolution of the slice stops computed in `create_mask`
(inpaint_video.py:92), for an axis of size `n`. The code passes
`stop = min(n, x + width)`, which is never above `n` but can be negative; a
negative stop counts from the end of the axis (`stop + n`), clamped below at
0 when still negative. -/
def slice_stop (n : ℕ) (stop : ℤ) : ℤ :=
  if stop < 0 then max 0 (stop + (n : ℤ)) else stop

/-- the slice assignment of `create_mask` (inpaint_video.py 89-93): pixel
`(px, py)` is written by `mask[y1:y2, x1:x2] = 255` for region `r` iff
`max(0,x) ≤ px < slice_stop w (min(w, x+width))` and likewise for rows —
the starts `max(0, ·)` are never negative, but the stops wrap NumPy-style
when `min(dim, x+width)` is negative. -/
def slice_covers (w h : ℕ) (r : Region) (px py : ℤ) : Prop :=
  max 0 r.x ≤ px ∧ px < slice_stop w (min (w : ℤ) (r.x + r.width)) ∧
  max 0 r.y ≤ py ∧ py < slice_stop h (min (h : ℤ) (r.y + r.height))

instance (w h : ℕ) (r : Region) (px py : ℤ) : Decidable (slice_covers w h r px py) := by
  unfold slice_covers
  infer_instance

/-- `create_mask` (inpaint_video.py 85-94): value of the uint8 mask at one
pixel. -/
def create_mask (w h : ℕ) (regions : List Region) (px py : ℤ) : ℕ :=
  if ∃ r ∈ regions, slice_covers w h r px py then 255 else 0

end InpaintVideo

namespace AiWatermarkRemover

/-- `cv2.rectangle(mask, (x, y), (x + w, y + h), 255, -1)` (line 46): a
filled rectangle with both corners inclusive; OpenCV clips the drawing to
the canvas, which the canvas bounds in `rasterize` account for. -/
def rect_covers (r : Region) (px py : ℤ) : Prop :=
  r.x ≤ px ∧ px ≤ r.x + r.width ∧ r.y ≤ py ∧ py ≤ r.y + r.height

instance (r : Region) (px py : ℤ) : Decidable (rect_covers r px py) := by
  unfold rect_covers
  infer_instance

/-- the canvas after the rectangle fills of `create_mask`
(ai_watermark_remover.py 42-46), as a full-plane image: 255 inside a drawn
rectangle on the canvas, 0 elsewhere. -/
def rasterize (w h : ℕ) (regions : List Region) (px py : ℤ) : ℕ :=
  if 0 ≤ px ∧ px < (w : ℤ) ∧ 0 ≤ py ∧ py < (h : ℤ) ∧
      ∃ r ∈ regions, rect_covers r px py then 255 else 0

/-- OpenCV `BORDER_REFLECT_101` index folding for a dimension of size `n`. -/
def reflect101 (n : ℕ) (i : ℤ) : ℤ :=
  if n ≤ 1 then 0
  else
    let p : ℤ := 2 * (n : ℤ) - 2
    let j := i % p
    if j < (n : ℤ) then j else p - j

/-- `cv2.GaussianBlur(mask, (15, 15), 0)` (line 47) at one pixel:
convolution with the 15x15 kernel `k` under reflected borders. OpenCV
derives the Gaussian weights for this aperture in floating point, so the
kernel is a parameter; the theorems hold for every nonnegative kernel
summing to 1, which the Gaussian kernel satisfies. -/
def gaussian_blur (k : Fin 15 → Fin 15 → ℚ) (w h : ℕ) (img : ℤ → ℤ → ℕ)
    (px py : ℤ) : ℚ :=
  ∑ i : Fin 15, ∑ j : Fin 15,
    k i j * (img (reflect101 w (px + (i : ℕ) - 7)) (reflect101 h (py + (j : ℕ) - 7)) : ℚ)

/-- `create_mask` (ai_watermark_remover.py 41-48): fill rectangles, blur,
then normalize by `/ 255.0`; value of the resulting float mask at one pixel. -/
def create_mask (k : Fin 15 → Fin 15 → ℚ) (w h : ℕ) (regions : List Region)
    (px py : ℤ) : ℚ :=
  gaussian_blur k w h (rasterize w h regions) px py / 255

/-- the clipped overlap of a region with the inclusive rectangle raster (an
empty overlap yields a negative width or height, covering nothing). -/
def clip_region_rect (w h : ℕ) (r : Region) : Region :=
  { x := max 0 r.x, y := max 0 r.y,
    width := min ((w : ℤ) - 1) (r.x + r.width) - max 0 r.x,
    height := min ((h : ℤ) - 1) (r.y + r.height) - max 0 r.y }

end AiWatermarkRemover

namespace InpaintVideo

/-- file-system view of the two paths involved in the remux post-pass:
contents are abstract byte strings identified by a tag, `none` = the path
does not exist. -/
structure RemuxFS where
  output : Option ℕ
  temp : Option ℕ
deriving DecidableEq

/-- outcome of the ffmpeg remux subprocess (inpaint_video.py 174-189):
either `subprocess.run` completes with exit code `code` having left
`written` at the output path, or it raises before completing. -/
inductive RemuxOutcome where
  | exit (code : ℤ) (written : Option ℕ)
  | raised
deriving DecidableEq

/-- the remux post-pass (inpaint_video.py 164-197), starting from the state
where frame processing left video-only content `v` at the output path:
`os.rename(output_path, temp_output)` moves `v` to the temp path, ffmpeg
runs, then the code promotes the temp file back (non-zero exit, or any
exception with the temp file still present) or removes it (exit 0). -/
def remux_finalize (v : ℕ) : RemuxOutcome → RemuxFS
  | .exit code written =>
      if code ≠ 0 then { output := some v, temp := none }
      else { output := written, temp := none }
  | .raised => { output := some v, temp := none }

/-- the priority-ordered hardware encoder candidates (inpaint_video.py
48-57). -/
def hw_encoders : List String :=
  ["h264_videotoolbox", "h264_nvenc", "h264_amf", "h264_qsv"]

/-- outcome of one smoke-encode probe: `subprocess.run` completes with a
return code, or raises (timeout included). -/
inductive ProbeOutcome where
  | exit (code : ℤ)
  | raised
deriving DecidableEq

/-- `result.returncode == 0` (inpaint_video.py 64). -/
def probe_ok (o : ProbeOutcome) : Bool :=
  match o with
  | .exit 0 => true
  | _ => false

/-- the probe loop of `detect_hw_encoder` (inpaint_video.py 58-67) over the
candidates still to try: any exception falls through to the next candidate. -/
def detect_hw_go (probe : String → ProbeOutcome) : List String → String
  | [] => "libx264"
  | e :: es => if probe_ok (probe e) then e else detect_hw_go probe es

/-- `detect_hw_encoder` (inpaint_video.py 44-68). -/
def detect_hw_encoder (probe : String → ProbeOutcome) : String :=
  detect_hw_go probe hw_encoders

end InpaintVideo

/-- released/not-released flags of the decoder handle (`cap`) and the
encoder/writer handle (`out`). -/
structure StageResources where
  capReleased : Bool
  outReleased : Bool
deriving DecidableEq

namespace InpaintVideo

/-- the frame loop of `process_video` (inpaint_video.py 147-158) with a
per-frame restoration step that may raise (`none`); returns whether an
exception escaped the loop. -/
def iv_loop (inpaint : ℕ → Option ℕ) : List ℕ → Bool
  | [] => false
  | f :: fs =>
      match inpaint f with
      | none => true
      | some _ => iv_loop inpaint fs

/-- resource behaviour of the frame-processing stage of `process_video`
(inpaint_video.py 146-162): the loop runs inside `try/finally`, and the
`finally` block calls `cap.release()` and `out.release()` on the normal and
the exceptional path alike. -/
def process_video_resources (inpaint : ℕ → Option ℕ) (frames : List ℕ) :
    StageResources × Bool :=
  ({ capReleased := true, outReleased := true }, iv_loop inpaint frames)

end InpaintVideo

namespace AiWatermarkRemover

/-- the batch loop of `process_video_optimized` (lines 105-148) with an
oracle that may raise (`none`); returns whether an exception escaped the
loop. -/
def avr_loop (oracle : List ℕ → Option (List ℕ)) : List (List ℕ) → Bool
  | [] => false
  | b :: bs =>
      match oracle b with
      | none => true
      | some _ => avr_loop oracle bs

/-- resource behaviour of `process_video_optimized` (lines 60-153): there is
no `try/finally`; `cap.release()` / `out.release()` (lines 150-151) execute
only when the loop exits normally, while an oracle exception propagates to
the `__main__` handler (lines 167-171), which prints an error and calls
`sys.exit(1)` without releasing either handle. -/
def process_video_optimized_resources (oracle : List ℕ → Option (List ℕ))
    (batches : List (List ℕ)) : StageResources × Bool :=
  if avr_loop oracle batches then
    ({ capReleased := false, outReleased := false }, true)
  else
    ({ capReleased := true, outReleased := true }, false)

/-- the accelerator backends `device` can take (line 65). -/
inductive Device where
  | cuda
  | mps
  | cpu
deriving DecidableEq

/-- line 88: `custom_batch_size if custom_batch_size > 0 else
(12 if device == 'cuda' else 4)`, computed once before the loop starts. -/
def batch_size_select (custom : ℤ) (d : Device) : ℤ :=
  if 0 < custom then custom else if d = Device.cuda then 12 else 4

/-- the cumulative `processed_count` values at the end of each iteration of
the main loop (ai_watermark_remover.py:142), for `rem` decodable frames
still to read in batches of `b`, starting from `acc` already processed; the
fuel is set to the frame count by the wrapper, so it never runs out. -/
def processed_go (b : ℕ) : ℕ → ℕ → ℕ → List ℕ
  | _, 0, _ => []
  | 0, _ + 1, _ => []
  | fuel + 1, rem + 1, acc =>
      (acc + min b (rem + 1)) ::
        processed_go b fuel (rem + 1 - min b (rem + 1)) (acc + min b (rem + 1))

/-- the `processed_count` values of a run over `actual` decodable frames
with batch size `b` (an empty read — `b = 0` or stream exhausted — breaks
the loop). -/
def processed_counts (b actual : ℕ) : List ℕ :=
  if b = 0 then [] else processed_go b actual actual 0

/-- ai_watermark_remover.py:147: `round((processed_count / total_frames) * 100)`.
Unlike `print_progress` of inpaint_video.py there is no positivity guard.
With a zero declared total the source raises ZeroDivisionError at the first
emission and no event is printed, so the model is only ever applied with
`total ≠ 0`. -/
def report_progress_pct (processed total : ℤ) : ℤ :=
  pyRound ((processed : ℚ) / (total : ℚ) * 100)

/-- the `(current_frame, progress)` pairs emitted by the loop of
`process_video_optimized` (ai_watermark_remover.py:142-148): an event fires
when `processed_count % (batch_size * 2) == 0` or
`processed_count == total_frames`. -/
def progress_events (total : ℤ) (b actual : ℕ) : List (ℕ × ℤ) :=
  ((processed_counts b actual).filter
      (fun c => c % (b * 2) == 0 || (c : ℤ) == total)).map
    (fun c => (c, report_progress_pct (c : ℤ) total))

end AiWatermarkRemover

namespace ModelManager

/-- cache directory state for one algorithm: sizes (in bytes) of the model
file and of the `.tmp` partial-download file, `none` = absent. -/
structure CacheState where
  modelFile : Option ℕ
  tempFile : Option ℕ
deriving DecidableEq

/-- outcome of the network fetch inside `download_model`: the request or a
read raises, or the body is fully written to the `.tmp` file with `size`
bytes whose digest matches (`checksumOk`) or not. -/
inductive FetchOutcome where
  | netError
  | fetched (size : ℕ) (checksumOk : Bool)
deriving DecidableEq

/-- result of one `download_model` call: final cache state, whether network
I/O was performed, and whether the call returned normally (`false` = the
wrapped `RuntimeError` propagated). -/
structure DownloadResult where
  state : CacheState
  network : Bool
  ok : Bool
deriving DecidableEq

/-- `is_model_downloaded` (model_manager.py 57-60): the cached file exists
and is strictly larger than 1 MiB. -/
def is_model_downloaded (s : CacheState) : Bool :=
  match s.modelFile with
  | some size => decide (1024 * 1024 < size)
  | none => false

/-- `download_model` (model_manager.py 63-136) for one algorithm.
`hasChecksum` is whether the registry entry carries a sha256 (every current
entry has `None`); `outcome` is the result of the network fetch. The
size check rejects files strictly below 1 MiB; every failure path removes
the `.tmp` file before the error propagates. -/
def download_model (hasChecksum : Bool) (outcome : FetchOutcome)
    (s : CacheState) : DownloadResult :=
  if is_model_downloaded s then ⟨s, false, true⟩
  else
    match outcome with
    | .netError => ⟨{ modelFile := s.modelFile, tempFile := none }, true, false⟩
    | .fetched size ck =>
        if size < 1024 * 1024 then
          ⟨{ modelFile := s.modelFile, tempFile := none }, true, false⟩
        else if hasChecksum && !ck then
          ⟨{ modelFile := s.modelFile, tempFile := none }, true, false⟩
        else ⟨{ modelFile := some size, tempFile := none }, true, true⟩

end ModelManager

/-- the uniform 15x15 averaging kernel, a concrete instance of the
nonnegative, unit-sum kernel family. -/
def uniform_kernel : Fin 15 → Fin 15 → ℚ := fun _ _ => 1 / 225

/-! ### Helper lemmas -/

lemma pyRound_ge_floor (q : ℚ) : ⌊q⌋ ≤ pyRound q := by
  unfold pyRound
  split_ifs <;> omega

lemma pyRound_le_floor_add_one (q : ℚ) : pyRound q ≤ ⌊q⌋ + 1 := by
  unfold pyRound
  split_ifs <;> omega

lemma pyRound_mono {q r : ℚ} (h : q ≤ r) : pyRound q ≤ pyRound r := by
  have hf : ⌊q⌋ ≤ ⌊r⌋ := Int.floor_mono h
  rcases eq_or_lt_of_le hf with he | hl
  · have hfr : (⌊q⌋ : ℚ) = (⌊r⌋ : ℚ) := by exact_mod_cast he
    unfold pyRound
    rw [← he]
    split_ifs with h1 h2 h3 h4 h5 h6 h7 h8 h9 <;>
      first
        | omega
        | (exfalso; rw [hfr] at *; linarith)
  · calc pyRound q ≤ ⌊q⌋ + 1 := pyRound_le_floor_add_one q
      _ ≤ ⌊r⌋ := hl
      _ ≤ pyRound r := pyRound_ge_floor r

namespace InpaintVideo

lemma print_progress_pct_mono (c d total : ℤ) (h : c ≤ d) :
    print_progress_pct c total ≤ print_progress_pct d total := by
  unfold print_progress_pct
  split_ifs with ht
  · apply pyRound_mono
    have htq : (0 : ℚ) < (total : ℚ) := by exact_mod_cast ht
    have : (c : ℚ) / total ≤ (d : ℚ) / total := by
      apply (div_le_div_iff_of_pos_right htq).mpr
      exact_mod_cast h
    nlinarith
  · exact le_refl 0

lemma print_progress_pct_self (total : ℤ) (ht : 0 < total) :
    print_progress_pct total total = 100 := by
  unfold print_progress_pct
  rw [if_pos ht]
  have hne : (total : ℚ) ≠ 0 := by exact_mod_cast ne_of_gt ht
  rw [div_self hne, one_mul]
  unfold pyRound
  norm_num

end InpaintVideo

namespace AiWatermarkRemover

lemma read_batches_go_join {α : Type*} (batch : ℕ) (hb : 0 < batch) :
    ∀ (fuel : ℕ) (l : List α), l.length ≤ fuel →
      (read_batches_go batch fuel l).flatten = l := by
  intro fuel
  induction fuel with
  | zero =>
    intro l hl
    have hnil : l = [] := List.length_eq_zero.mp (Nat.le_zero.mp hl)
    subst hnil
    rfl
  | succ n ih =>
    intro l hl
    cases l with
    | nil => rfl
    | cons a t =>
      show (((a :: t).take batch) ::
          read_batches_go batch n ((a :: t).drop batch)).flatten = a :: t
      rw [List.flatten_cons, ih ((a :: t).drop batch) ?_, List.take_append_drop]
      simp only [List.length_drop, List.length_cons] at *
      omega

lemma read_batches_join {α : Type*} (batch : ℕ) (hb : 0 < batch) (l : List α) :
    (read_batches batch l).flatten = l := by
  unfold read_batches
  rw [if_neg (by omega)]
  exact read_batches_go_join batch hb l.length l le_rfl

lemma process_video_optimized_eq_map (oracle : List ℚ → List ℚ) (mask : List ℚ)
    (batch : ℕ) (hb : 0 < batch) (frames : List (List ℕ)) :
    process_video_optimized oracle mask batch frames =
      frames.map (process_frame oracle mask) := by
  unfold process_video_optimized
  rw [← List.map_flatten, read_batches_join batch hb]

lemma composite_pixel_self (p : ℕ) (m : ℚ) : composite_pixel p p m = p := by
  unfold composite_pixel
  have h : (p : ℚ) * (1 - m) + (p : ℚ) * m = (p : ℚ) := by ring
  rw [h, Int.floor_natCast, Int.toNat_natCast]

lemma tensor_to_byte_roundtrip (p : ℕ) (hp : p ≤ 255) :
    tensor_to_byte ((p : ℚ) / 255) = p := by
  unfold tensor_to_byte
  have h : ((p : ℚ) / 255) * 255 = (p : ℚ) := by
    field_simp
  rw [h, min_eq_right (by exact_mod_cast hp), max_eq_right (by positivity),
    Int.floor_natCast, Int.toNat_natCast]

lemma zipWith3_composite_self :
    ∀ (f : List ℕ) (mask : List ℚ), f.length ≤ mask.length →
      List.zipWith3 composite_pixel f f mask = f
  | [], _, _ => rfl
  | _ :: _, [], h => by simp at h
  | p :: t, m :: ms, h => by
      show composite_pixel p p m :: List.zipWith3 composite_pixel t t ms = p :: t
      rw [composite_pixel_self,
        zipWith3_composite_self t ms (by simpa using h)]

end AiWatermarkRemover

namespace InpaintVideo

lemma slice_covers_geometric (w h : ℕ) (r : Region) (px py : ℤ)
    (hx : 0 ≤ r.x + r.width) (hy : 0 ≤ r.y + r.height) :
    slice_covers w h r px py ↔
      (max 0 r.x ≤ px ∧ px < min (w : ℤ) (r.x + r.width) ∧
        max 0 r.y ≤ py ∧ py < min (h : ℤ) (r.y + r.height)) := by
  unfold slice_covers slice_stop
  split_ifs <;> omega

end InpaintVideo

namespace AiWatermarkRemover

lemma rasterize_clip (w h : ℕ) (regions : List Region) (a b : ℤ) :
    rasterize w h regions a b =
      rasterize w h (regions.map (clip_region_rect w h)) a b := by
  unfold rasterize
  apply if_congr ?_ rfl rfl
  constructor
  · rintro ⟨h1, h2, h3, h4, r, hr, hc⟩
    refine ⟨h1, h2, h3, h4, clip_region_rect w h r, List.mem_map_of_mem _ hr, ?_⟩
    unfold rect_covers clip_region_rect at *
    simp only at *
    omega
  · rintro ⟨h1, h2, h3, h4, r, hr, hc⟩
    rcases List.mem_map.mp hr with ⟨s, hs, rfl⟩
    refine ⟨h1, h2, h3, h4, s, hs, ?_⟩
    unfold rect_covers clip_region_rect at *
    simp only at *
    omega

lemma rasterize_le_255 (w h : ℕ) (regions : List Region) (a b : ℤ) :
    rasterize w h regions a b ≤ 255 := by
  unfold rasterize
  split <;> omega

lemma rasterize_nil (w h : ℕ) (a b : ℤ) : rasterize w h [] a b = 0 := by
  unfold rasterize
  simp

end AiWatermarkRemover

namespace InpaintVideo

lemma detect_hw_go_eq_find (probe : String → ProbeOutcome) :
    ∀ l : List String, detect_hw_go probe l =
      (l.find? (fun e => probe_ok (probe e))).getD "libx264" := by
  intro l
  induction l with
  | nil => rfl
  | cons e es ih =>
    unfold detect_hw_go
    by_cases hp : probe_ok (probe e) = true
    · rw [if_pos hp]
      simp [List.find?_cons, hp]
    · rw [if_neg hp, ih]
      simp only [Bool.not_eq_true] at hp
      simp [List.find?_cons, hp]

end InpaintVideo

lemma getLast?_filter {α : Type*} (p : α → Bool) :
    ∀ (l : List α) (c : α), l.getLast? = some c → p c = true →
      (l.filter p).getLast? = some c := by
  intro l
  induction l with
  | nil =>
    intro c hc hp
    simp at hc
  | cons a t ih =>
    intro c hc hp
    cases t with
    | nil =>
      have hac : a = c := by simpa using hc
      subst hac
      simp [List.filter, hp]
    | cons e t2 =>
      rw [List.getLast?_cons_cons] at hc
      have hrec := ih c hc hp
      by_cases hpa : p a = true
      · rw [List.filter_cons_of_pos hpa]
        have hne : (e :: t2).filter p ≠ [] := by
          intro hnil
          rw [hnil] at hrec
          simp at hrec
        rcases List.exists_cons_of_ne_nil hne with ⟨x, xs, hx⟩
        rw [hx] at hrec ⊢
        rw [List.getLast?_cons_cons]
        exact hrec
      · rw [List.filter_cons_of_neg (by simpa using hpa)]
        exact hrec

namespace AiWatermarkRemover

lemma processed_go_bounds (b : ℕ) (hb : 0 < b) :
    ∀ (fuel rem acc : ℕ),
      List.Pairwise (· < ·) (processed_go b fuel rem acc) ∧
      ∀ c ∈ processed_go b fuel rem acc, acc < c := by
  intro fuel
  induction fuel with
  | zero =>
    intro rem acc
    cases rem with
    | zero => exact ⟨by simp [processed_go], by intro c hc; simp [processed_go] at hc⟩
    | succ r => exact ⟨by simp [processed_go], by intro c hc; simp [processed_go] at hc⟩
  | succ f ih =>
    intro rem acc
    cases rem with
    | zero => exact ⟨by simp [processed_go], by intro c hc; simp [processed_go] at hc⟩
    | succ r =>
      have hstep := ih (r + 1 - min b (r + 1)) (acc + min b (r + 1))
      constructor
      · show List.Pairwise (· < ·) ((acc + min b (r + 1)) ::
          processed_go b f (r + 1 - min b (r + 1)) (acc + min b (r + 1)))
        refine List.pairwise_cons.mpr ⟨?_, hstep.1⟩
        intro c hc
        exact hstep.2 c hc
      · intro c hc
        rcases List.mem_cons.mp hc with h | h
        · subst h; omega
        · have := hstep.2 c h
          omega

lemma processed_go_zero (b fuel acc : ℕ) : processed_go b fuel 0 acc = [] := by
  cases fuel <;> rfl

lemma processed_go_ne_nil (b : ℕ) (fuel rem acc : ℕ) (hr : 0 < rem)
    (hf : rem ≤ fuel) : processed_go b fuel rem acc ≠ [] := by
  cases fuel with
  | zero => omega
  | succ f =>
    cases rem with
    | zero => omega
    | succ r => simp [processed_go]

lemma processed_go_getLast (b : ℕ) (hb : 0 < b) :
    ∀ (fuel rem acc : ℕ), 0 < rem → rem ≤ fuel →
      (processed_go b fuel rem acc).getLast? = some (acc + rem) := by
  intro fuel
  induction fuel with
  | zero =>
    intro rem acc hr hf
    omega
  | succ f ih =>
    intro rem acc hr hf
    cases rem with
    | zero => omega
    | succ r =>
      show ((acc + min b (r + 1)) ::
        processed_go b f (r + 1 - min b (r + 1)) (acc + min b (r + 1))).getLast? =
          some (acc + (r + 1))
      by_cases hrt : r + 1 - min b (r + 1) = 0
      · have hmin : min b (r + 1) = r + 1 := by omega
        rw [hrt, hmin, processed_go_zero]
        rfl
      · have hne : processed_go b f (r + 1 - min b (r + 1))
            (acc + min b (r + 1)) ≠ [] :=
          processed_go_ne_nil b f _ _ (by omega) (by omega)
        have hrec := ih (r + 1 - min b (r + 1)) (acc + min b (r + 1))
          (by omega) (by omega)
        have hsum : (acc + min b (r + 1)) + (r + 1 - min b (r + 1)) =
            acc + (r + 1) := by omega
        rw [hsum] at hrec
        rcases List.exists_cons_of_ne_nil hne with ⟨x, xs, hx⟩
        rw [hx] at hrec ⊢
        rw [List.getLast?_cons_cons]
        exact hrec

lemma processed_counts_pairwise (b actual : ℕ) :
    List.Pairwise (· < ·) (processed_counts b actual) := by
  unfold processed_counts
  split_ifs with hbz
  · exact List.Pairwise.nil
  · exact (processed_go_bounds b (by omega) actual actual 0).1

lemma processed_counts_getLast (b actual : ℕ) (hb : 0 < b) (ha : 0 < actual) :
    (processed_counts b actual).getLast? = some actual := by
  unfold processed_counts
  rw [if_neg (by omega)]
  have h := processed_go_getLast b hb actual actual 0 ha le_rfl
  simpa using h

lemma report_progress_pct_mono (c d total : ℤ) (ht : 0 < total) (h : c ≤ d) :
    report_progress_pct c total ≤ report_progress_pct d total := by
  unfold report_progress_pct
  apply pyRound_mono
  have htq : (0 : ℚ) < (total : ℚ) := by exact_mod_cast ht
  have hdiv : (c : ℚ) / total ≤ (d : ℚ) / total := by
    apply (div_le_div_iff_of_pos_right htq).mpr
    exact_mod_cast h
  nlinarith

lemma report_progress_pct_self (total : ℤ) (ht : total ≠ 0) :
    report_progress_pct total total = 100 := by
  unfold report_progress_pct
  have hne : (total : ℚ) ≠ 0 := by exact_mod_cast ht
  rw [div_self hne, one_mul]
  unfold pyRound
  norm_num

lemma report_progress_pct_two_neg_one : report_progress_pct 2 (-1) = -200 := by
  unfold report_progress_pct pyRound
  norm_num

lemma report_progress_pct_four_neg_one : report_progress_pct 4 (-1) = -400 := by
  unfold report_progress_pct pyRound
  norm_num

end AiWatermarkRemover

lemma print_progress_pct_one_two : InpaintVideo.print_progress_pct 1 2 = 50 := by
  unfold InpaintVideo.print_progress_pct pyRound
  norm_num

lemma uniform_kernel_nonneg : ∀ i j, 0 ≤ uniform_kernel i j := by
  intro i j
  norm_num [uniform_kernel]

lemma uniform_kernel_sum :
    (∑ i : Fin 15, ∑ j : Fin 15, uniform_kernel i j) = 1 := by
  simp [uniform_kernel, Finset.sum_const, Finset.card_univ]
  norm_num

/-! ### Claims -/

/-- C2 (amended), covering both reporters. For inpaint_video's guarded
reporter the percentage is monotonically non-decreasing within every run;
for ai_watermark_remover's unguarded reporter it is monotonically
non-decreasing whenever the declared total is positive (a negative declared
total yields strictly decreasing percentages and a zero one raises before
the first event — see the counterexample). For both, when the number of
actually decodable frames equals the (positive) declared total, the final
emitted progress event reports 100% with `current_frame = total_frames`;
when the true count differs the final event can report less than 100% —
see the counterexample. -/
theorem progress_events_monotone_final (total : ℤ) (actual : ℕ) (bsz n : ℕ) :
    List.Pairwise (fun a b : ℤ × ℤ => a.2 ≤ b.2)
      (InpaintVideo.progress_events total actual) ∧
    (0 < total → (actual : ℤ) = total →
      (InpaintVideo.progress_events total actual).getLast? = some (total, 100)) ∧
    (0 < total → List.Pairwise (fun x y : ℕ × ℤ => x.2 ≤ y.2)
      (AiWatermarkRemover.progress_events total bsz n)) ∧
    (0 < bsz → 0 < n → (n : ℤ) = total →
      (AiWatermarkRemover.progress_events total bsz n).getLast? = some (n, 100)) := by
  refine ⟨?_, ?_, ?_, ?_⟩
  · unfold InpaintVideo.progress_events
    apply List.Pairwise.filter
    rw [List.pairwise_map]
    apply List.Pairwise.imp ?_ (List.pairwise_lt_range actual)
    intro i j hij
    exact InpaintVideo.print_progress_pct_mono _ _ total (by omega)
  · intro ht he
    cases actual with
    | zero => exfalso; omega
    | succ n =>
      unfold InpaintVideo.progress_events
      rw [List.range_succ, List.map_append, List.filter_append]
      have h1 : ((n : ℤ) + 1) = total := by exact_mod_cast he
      have hcond : (((n : ℤ) + 1) % InpaintVideo.report_interval total == 0 ||
          ((n : ℤ) + 1) == total) = true := by
        rw [Bool.or_eq_true]
        right; exact beq_iff_eq.mpr h1
      simp only [List.map_cons, List.map_nil, List.filter_cons, hcond, if_true,
        List.filter_nil]
      rw [List.getLast?_concat]
      rw [h1, InpaintVideo.print_progress_pct_self total ht]
  · intro ht
    unfold AiWatermarkRemover.progress_events
    rw [List.pairwise_map]
    apply List.Pairwise.imp ?_
      (List.Pairwise.filter _ (AiWatermarkRemover.processed_counts_pairwise bsz n))
    intro c d hcd
    exact AiWatermarkRemover.report_progress_pct_mono _ _ total ht (by omega)
  · intro hbsz hn hnt
    unfold AiWatermarkRemover.progress_events
    rw [List.getLast?_map]
    have hlast := getLast?_filter
      (fun c => c % (bsz * 2) == 0 || (c : ℤ) == total)
      (AiWatermarkRemover.processed_counts bsz n) n
      (AiWatermarkRemover.processed_counts_getLast bsz n hbsz hn)
      (by rw [Bool.or_eq_true]; right; exact beq_iff_eq.mpr hnt)
    rw [hlast]
    have hpct : AiWatermarkRemover.report_progress_pct (n : ℤ) total = 100 := by
      rw [hnt]
      exact AiWatermarkRemover.report_progress_pct_self total (by omega)
    simp [hpct]

theorem progress_events_monotone_final_witness :
    (0 : ℤ) < 5 ∧
      (InpaintVideo.progress_events 5 5).getLast? = some (5, 100) ∧
      List.Pairwise (fun x y : ℕ × ℤ => x.2 ≤ y.2)
        (AiWatermarkRemover.progress_events 5 2 5) ∧
      (AiWatermarkRemover.progress_events 5 2 5).getLast? = some (5, 100) :=
  ⟨by norm_num,
    (progress_events_monotone_final 5 5 2 5).2.1 (by norm_num) (by norm_num),
    (progress_events_monotone_final 5 5 2 5).2.2.1 (by norm_num),
    (progress_events_monotone_final 5 5 2 5).2.2.2 (by norm_num) (by norm_num)
      (by norm_num)⟩

/-- C2 counterexample, one per reporter. inpaint_video: with a declared
total of 2 frames of which only 1 actually decodes, the final emitted
progress event is `(1, 50)` — its percentage is not 100 and its
`current_frame` is not the declared total. ai_watermark_remover: with the
declared total `-1` (negative container metadata, which the sibling file
guards against), batch size 1 and 4 decodable frames, the emitted events are
`(2, -200)` then `(4, -400)` — strictly decreasing percentages, refuting
monotonicity across every run. -/
theorem progress_final_event_counterexample :
    ((InpaintVideo.progress_events 2 1).getLast? = some (1, 50) ∧
      (1 : ℤ) ≠ 2 ∧ (50 : ℤ) ≠ 100) ∧
    (AiWatermarkRemover.progress_events (-1) 1 4 = [(2, -200), (4, -400)] ∧
      ¬ ((-200 : ℤ) ≤ -400)) := by
  constructor
  · refine ⟨?_, by norm_num, by norm_num⟩
    unfold InpaintVideo.progress_events
    rw [show List.range 1 = [0] from rfl]
    simp only [List.map_cons, List.map_nil, Nat.cast_zero, zero_add,
      print_progress_pct_one_two]
    decide
  · refine ⟨?_, by norm_num⟩
    have hfilter : (AiWatermarkRemover.processed_counts 1 4).filter
        (fun (c : ℕ) => c % (1 * 2) == 0 || (c : ℤ) == (-1 : ℤ)) = [2, 4] := by
      decide
    unfold AiWatermarkRemover.progress_events
    rw [hfilter]
    simp only [List.map_cons, List.map_nil, Nat.cast_ofNat]
    rw [AiWatermarkRemover.report_progress_pct_two_neg_one,
      AiWatermarkRemover.report_progress_pct_four_neg_one]

/-- C10: the telemetry path divides and takes moduli only by safe values:
a non-positive declared total yields percentage 0 (no division), and the
report interval is at least 1 for every declared total (no modulus by 0). -/
theorem progress_guard_no_div_zero (current total : ℤ) :
    (total ≤ 0 → InpaintVideo.print_progress_pct current total = 0) ∧
      1 ≤ InpaintVideo.report_interval total := by
  constructor
  · intro h
    unfold InpaintVideo.print_progress_pct
    rw [if_neg (by omega)]
  · exact le_max_left 1 _

theorem progress_guard_no_div_zero_witness :
    (-3 : ℤ) ≤ 0 ∧ InpaintVideo.print_progress_pct 7 (-3) = 0 ∧
      1 ≤ InpaintVideo.report_interval (-3) :=
  ⟨by norm_num, (progress_guard_no_div_zero 7 (-3)).1 (by norm_num),
    (progress_guard_no_div_zero 7 (-3)).2⟩

/-- C1 (amended): for every oracle, mask and positive batch size the
composited output is the per-frame composite
`⌊original*(1-mask) + restored*mask⌋` (the float blend is truncated, not
rounded, by `astype(np.uint8)`; the clamp is implicit since the blend of
bytes by a mask in `[0,1]` stays in `[0,255]`), and the output is
independent of the batch size chosen. -/
theorem process_video_optimized_batch_invariant (oracle : List ℚ → List ℚ)
    (mask : List ℚ) (b₁ b₂ : ℕ) (h₁ : 0 < b₁) (h₂ : 0 < b₂)
    (frames : List (List ℕ)) :
    AiWatermarkRemover.process_video_optimized oracle mask b₁ frames =
      AiWatermarkRemover.process_video_optimized oracle mask b₂ frames ∧
    AiWatermarkRemover.process_video_optimized oracle mask b₁ frames =
      frames.map (fun (f : List ℕ) =>
        List.zipWith3
          (fun (o r : ℕ) (m : ℚ) => (⌊(o : ℚ) * (1 - m) + (r : ℚ) * m⌋).toNat) f
          ((oracle (AiWatermarkRemover.to_tensor f)).map
            AiWatermarkRemover.tensor_to_byte) mask) := by
  constructor
  · rw [AiWatermarkRemover.process_video_optimized_eq_map oracle mask b₁ h₁,
      AiWatermarkRemover.process_video_optimized_eq_map oracle mask b₂ h₂]
  · rw [AiWatermarkRemover.process_video_optimized_eq_map oracle mask b₁ h₁]
    rfl

theorem process_video_optimized_batch_invariant_witness :
    0 < 1 ∧ 0 < 3 ∧
      AiWatermarkRemover.process_video_optimized (fun t => t) [1/2] 1 [[10], [20]] =
        AiWatermarkRemover.process_video_optimized (fun t => t) [1/2] 3 [[10], [20]] :=
  ⟨Nat.one_pos, by norm_num,
    (process_video_optimized_batch_invariant (fun t => t) [1/2] 1 3 Nat.one_pos
        (by norm_num) [[10], [20]]).1⟩

/-- C1 counterexample: the compositing step truncates, it does not round.
With original pixel 0, restored byte 1 and mask value 128/255, the code
writes pixel 0, while `original*(1-mask) + restored*mask` rounded to the
nearest integer is 1. -/
theorem composite_truncates_not_rounds :
    AiWatermarkRemover.process_video_optimized (fun _ => [1/255]) [128/255] 1 [[0]]
        = [[0]] ∧
      round ((0 : ℚ) * (1 - 128/255) + (1 : ℚ) * (128/255)) = 1 := by
  constructor
  · rw [AiWatermarkRemover.process_video_optimized_eq_map _ _ 1 Nat.one_pos]
    simp only [List.map_cons, List.map_nil]
    unfold AiWatermarkRemover.process_frame AiWatermarkRemover.to_tensor
      AiWatermarkRemover.tensor_to_byte AiWatermarkRemover.composite_pixel
    norm_num [List.zipWith3]
  · rw [round_eq]
    norm_num

/-- C7: with the identity oracle, the composited output equals the input
frames exactly, for every mask and every positive batch size (frames are
byte rasters matching the mask resolution). -/
theorem identity_oracle_output_eq_input (mask : List ℚ) (b : ℕ) (hb : 0 < b)
    (frames : List (List ℕ))
    (hlen : ∀ f ∈ frames, f.length = mask.length)
    (hbyte : ∀ f ∈ frames, ∀ p ∈ f, p ≤ 255) :
    AiWatermarkRemover.process_video_optimized (fun t => t) mask b frames = frames := by
  rw [AiWatermarkRemover.process_video_optimized_eq_map _ _ b hb]
  have hfr : ∀ f ∈ frames, AiWatermarkRemover.process_frame (fun t => t) mask f = f := by
    intro f hf
    unfold AiWatermarkRemover.process_frame AiWatermarkRemover.to_tensor
    have hmap : (f.map (fun p : ℕ => (p : ℚ) / 255)).map
        AiWatermarkRemover.tensor_to_byte = f := by
      rw [List.map_map]
      have : ∀ p ∈ f, (AiWatermarkRemover.tensor_to_byte ∘
          fun p : ℕ => (p : ℚ) / 255) p = id p := by
        intro p hp
        exact AiWatermarkRemover.tensor_to_byte_roundtrip p (hbyte f hf p hp)
      rw [List.map_congr_left this, List.map_id]
    rw [hmap]
    exact AiWatermarkRemover.zipWith3_composite_self f mask (le_of_eq (hlen f hf))
  calc frames.map (AiWatermarkRemover.process_frame (fun t => t) mask)
      = frames.map id := List.map_congr_left hfr
    _ = frames := List.map_id frames

theorem identity_oracle_output_eq_input_witness :
    0 < 2 ∧
      AiWatermarkRemover.process_video_optimized (fun t => t) [1/2, 1] 2
          [[10, 200], [0, 255]] = [[10, 200], [0, 255]] :=
  ⟨by norm_num,
    identity_oracle_output_eq_input [1/2, 1] 2 (by norm_num) [[10, 200], [0, 255]]
      (by
        intro f hf
        simp only [List.mem_cons, List.not_mem_nil, or_false] at hf
        rcases hf with h | h <;> subst h <;> rfl)
      (by
        intro f hf
        simp only [List.mem_cons, List.not_mem_nil, or_false] at hf
        rcases hf with h | h <;> subst h <;> decide)⟩

/-- C3: if the remux subprocess exits non-zero or raises, the final output
file holds exactly the video-only intermediate content (promoted verbatim)
and the temporary intermediate path no longer exists; on remux success the
intermediate file is deleted as well. -/
theorem remux_failure_promotes_intermediate (v : ℕ) (code : ℤ) (w : Option ℕ) :
    (code ≠ 0 → InpaintVideo.remux_finalize v (.exit code w) =
      { output := some v, temp := none }) ∧
    InpaintVideo.remux_finalize v .raised = { output := some v, temp := none } ∧
    (InpaintVideo.remux_finalize v (.exit code w)).temp = none := by
  refine ⟨?_, rfl, ?_⟩
  · intro hc
    show (if code ≠ 0 then ({ output := some v, temp := none } : InpaintVideo.RemuxFS)
        else { output := w, temp := none }) = { output := some v, temp := none }
    rw [if_pos hc]
  · show (if code ≠ 0 then ({ output := some v, temp := none } : InpaintVideo.RemuxFS)
        else { output := w, temp := none }).temp = none
    split <;> rfl

theorem remux_failure_promotes_intermediate_witness :
    (1 : ℤ) ≠ 0 ∧
      InpaintVideo.remux_finalize 7 (.exit 1 (some 9)) = ⟨some 7, none⟩ ∧
      (InpaintVideo.remux_finalize 7 (.exit 0 (some 9))).temp = none :=
  ⟨by norm_num, (remux_failure_promotes_intermediate 7 1 (some 9)).1 (by norm_num),
    (remux_failure_promotes_intermediate 7 0 (some 9)).2.2⟩

/-- C4: for every outcome of the probes — failing exit codes, exceptions,
timeouts — `detect_hw_encoder` returns the first hardware profile in
priority order whose smoke-encode exits 0, and the software fallback
`libx264` when none succeeds; being a total function of the probe outcomes,
it never throws. -/
theorem detect_hw_encoder_first_success_or_fallback
    (probe : String → InpaintVideo.ProbeOutcome) :
    InpaintVideo.detect_hw_encoder probe =
      ((InpaintVideo.hw_encoders.find?
        (fun e => InpaintVideo.probe_ok (probe e))).getD "libx264") :=
  InpaintVideo.detect_hw_go_eq_find probe InpaintVideo.hw_encoders

/-- C5: evaluation at the failing input. In `process_video_optimized` an
oracle error escapes the batch loop with both the decoder and writer handles
unreleased (the release calls at lines 150-151 are skipped, and the
`__main__` handler exits the process), whereas `process_video` of
inpaint_video.py releases both handles on the same oracle-error path thanks
to its `try/finally`. -/
theorem process_video_optimized_leaks_handles_on_oracle_error :
    (AiWatermarkRemover.process_video_optimized_resources
        (fun _ => none) [[0]]).2 = true ∧
    (AiWatermarkRemover.process_video_optimized_resources
        (fun _ => none) [[0]]).1.capReleased = false ∧
    (AiWatermarkRemover.process_video_optimized_resources
        (fun _ => none) [[0]]).1.outReleased = false ∧
    (InpaintVideo.process_video_resources (fun _ => none) [0]).2 = true ∧
    (InpaintVideo.process_video_resources (fun _ => none) [0]).1.capReleased = true ∧
    (InpaintVideo.process_video_resources (fun _ => none) [0]).1.outReleased = true := by
  decide

/-- C8 (amended): calling `download_model` twice performs network I/O at
most once provided the fetched artifact is strictly larger than the 1 MiB
minimum (and its checksum passes when one is configured) — the second call
returns from cache without network; and every failing call removes the
partial `.tmp` file before the error propagates. (At exactly 1 MiB the
first call succeeds yet the file is not considered downloaded — see the
counterexample.) -/
theorem download_model_idempotent_cleanup (hc : Bool)
    (s : ModelManager.CacheState) (size : ℕ) (ck : Bool)
    (o₂ : ModelManager.FetchOutcome)
    (hsize : 1024 * 1024 < size) (hck : hc = false ∨ ck = true) :
    (ModelManager.download_model hc o₂
        (ModelManager.download_model hc (.fetched size ck) s).state).network = false ∧
    (ModelManager.download_model hc o₂
        (ModelManager.download_model hc (.fetched size ck) s).state).ok = true ∧
    (∀ o : ModelManager.FetchOutcome,
      (ModelManager.download_model hc o s).ok = false →
      (ModelManager.download_model hc o s).state.tempFile = none) := by
  have hdl : ModelManager.is_model_downloaded
      ((ModelManager.download_model hc (.fetched size ck) s).state) = true := by
    unfold ModelManager.download_model
    by_cases hd : ModelManager.is_model_downloaded s
    · rw [if_pos hd]
      exact hd
    · rw [if_neg hd]
      have hcc : (hc && !ck) = false := by
        rcases hck with h | h <;> simp [h]
      simp only [if_neg (by omega : ¬ size < 1024 * 1024), hcc,
        Bool.false_eq_true, if_false]
      unfold ModelManager.is_model_downloaded
      exact decide_eq_true hsize
  have hsecond : ∀ (o : ModelManager.FetchOutcome) (t : ModelManager.CacheState),
      ModelManager.is_model_downloaded t = true →
      ModelManager.download_model hc o t = ⟨t, false, true⟩ := by
    intro o t ht
    unfold ModelManager.download_model
    rw [if_pos ht]
  refine ⟨?_, ?_, ?_⟩
  · rw [hsecond o₂ _ hdl]
  · rw [hsecond o₂ _ hdl]
  · intro o hok
    by_cases hd : ModelManager.is_model_downloaded s = true
    · rw [hsecond o s hd] at hok
      simp at hok
    · unfold ModelManager.download_model at hok ⊢
      rw [if_neg hd] at hok ⊢
      cases o with
      | netError => rfl
      | fetched sz c =>
        simp only at hok ⊢
        split_ifs at hok ⊢ <;> simp_all

theorem download_model_idempotent_cleanup_witness :
    1024 * 1024 < 1024 * 1024 + 1 ∧
      (ModelManager.download_model false (.fetched (1024 * 1024 + 1) true)
          (ModelManager.download_model false (.fetched (1024 * 1024 + 1) true)
            ⟨none, none⟩).state).network = false :=
  ⟨by norm_num,
    (download_model_idempotent_cleanup false ⟨none, none⟩ (1024 * 1024 + 1) true
        (.fetched (1024 * 1024 + 1) true) (by norm_num) (Or.inl rfl)).1⟩

/-- C8 counterexample: when the fetched artifact is exactly 1 MiB, the first
call performs network I/O and returns successfully (the size check rejects
only files strictly below 1 MiB), yet `is_model_downloaded` demands strictly
more than 1 MiB, so the second call performs network I/O again. -/
theorem download_model_exact_min_size_refetch :
    (ModelManager.download_model false (.fetched (1024 * 1024) true)
        ⟨none, none⟩).network = true ∧
    (ModelManager.download_model false (.fetched (1024 * 1024) true)
        ⟨none, none⟩).ok = true ∧
    (ModelManager.download_model false (.fetched (1024 * 1024) true)
        (ModelManager.download_model false (.fetched (1024 * 1024) true)
          ⟨none, none⟩).state).network = true := by
  decide

/-- C9 (amended): a positive explicit batch-size override is used as given;
otherwise the default — fixed once at startup, before the loop — is 12 only
for CUDA and 4 for both MPS and CPU execution (MPS is accelerator-backed yet
receives the lower default — see the counterexample). -/
theorem batch_size_select_spec (custom : ℤ) (d : AiWatermarkRemover.Device) :
    (0 < custom → AiWatermarkRemover.batch_size_select custom d = custom) ∧
    (custom ≤ 0 → AiWatermarkRemover.batch_size_select custom d =
      if d = AiWatermarkRemover.Device.cuda then 12 else 4) := by
  constructor
  · intro hcu
    unfold AiWatermarkRemover.batch_size_select
    rw [if_pos hcu]
  · intro hcu
    unfold AiWatermarkRemover.batch_size_select
    rw [if_neg (by omega)]

theorem batch_size_select_spec_witness :
    AiWatermarkRemover.batch_size_select 5 AiWatermarkRemover.Device.cpu = 5 ∧
      AiWatermarkRemover.batch_size_select 0 AiWatermarkRemover.Device.cuda = 12 :=
  ⟨(batch_size_select_spec 5 AiWatermarkRemover.Device.cpu).1 (by norm_num),
    by
      have h := (batch_size_select_spec 0 AiWatermarkRemover.Device.cuda).2
        (by norm_num)
      simpa using h⟩

/-- C9 counterexample: on MPS with no explicit override the chosen batch
size is 4, not the accelerator default 12 the claim asserts. -/
theorem batch_size_mps_default_counterexample :
    AiWatermarkRemover.batch_size_select 0 AiWatermarkRemover.Device.mps = 4 ∧
      (4 : ℤ) ≠ 12 := by
  decide

end MagicEraser
